import Mathlib

/-!
Verification of the Bridge client-side event Aggregator
(`frontend/src/store.ts`) and pipeline-editing actions against the
natural-language specification.  The store's `handleEvent` reducer, its
helper functions, and `reorderPipeline` are embedded as executable Lean
functions; the values the code draws from its environment
(`generateId()` = `Math.random().toString(36).substring(2, 15)` and
`new Date()`) are supplied by an explicit `Oracle`, so that the
dependence of the derived state on those sources can be stated and
settled precisely.
-/

namespace Bridge

/-- Event type vocabulary of the wire protocol (`types.ts`, `EventType`). -/
inductive EventType where
  | status
  | token
  | critique
  | refinement
  | done
  | error
  | iteration
  | pipeline_step
  | agent_start
  | agent_complete
deriving DecidableEq, Repr

/-- JavaScript string rendering of an `EventType` value, as produced by the
template literal that builds the accumulation key in the store
(`` `${effectiveAgentId}_${type}` ``, store.ts line 248). -/
def typeName : EventType → String
  | .status => "status"
  | .token => "token"
  | .critique => "critique"
  | .refinement => "refinement"
  | .done => "done"
  | .error => "error"
  | .iteration => "iteration"
  | .pipeline_step => "pipeline_step"
  | .agent_start => "agent_start"
  | .agent_complete => "agent_complete"

/-- Wire event (`BridgeEvent` in `types.ts`).  Optional JSON fields are
modelled as `Option`; `none` is an absent field. -/
structure Event where
  agent : String
  type : EventType
  content : Option String := none
  iteration : Option Nat := none
  satisfied : Option Bool := none
  payload : Option String := none
  step : Option Nat := none
  agentId : Option String := none
deriving DecidableEq, Repr

/-- Per-agent derived state (`AgentState` in `types.ts`).  The
`tokenCount` field is an `Option` because the JavaScript value can be
`undefined`: spreading a missing map entry (store.ts line 235) produces an
object without a `tokenCount` property. -/
structure AgentState where
  isActive : Bool
  isThinking : Bool
  tokenCount : Option Nat
deriving DecidableEq, Repr

/-- Transcript message (`Message` in `types.ts`).  The `timestamp` is the
value of the `new Date()` call, modelled as a number; `isStreaming` is an
optional field that the store either leaves absent or sets to `true`. -/
structure Message where
  id : String
  agent : String
  agentId : Option String
  content : String
  timestamp : Nat
  isStreaming : Option Bool
  type : EventType
deriving DecidableEq, Repr

/-- Environment of a run: call number `k` of `generateId()` returns
`genId k`, and the matching `new Date()` call returns `now k`.  Every
message creation in `handleEvent` consumes one index. -/
structure Oracle where
  genId : Nat → String
  now : Nat → Nat

/-- Lookup in a JavaScript-object-like association list
(`obj[k]`, `undefined` = `none`). -/
def lookupKey {α : Type} : List (String × α) → String → Option α
  | [], _ => none
  | (k, v) :: rest, k' => if k = k' then some v else lookupKey rest k'

/-- Key assignment with JavaScript object semantics: overwrite an existing
key in place, otherwise append the new entry. -/
def setKey {α : Type} : List (String × α) → String → α → List (String × α)
  | [], k, v => [(k, v)]
  | (k', v') :: rest, k, v =>
      if k' = k then (k, v) :: rest else (k', v') :: setKey rest k v

/-- Truthiness test on the `currentMessageIds` map: the guard
`if (!currentMessageIds[messageKey])` (store.ts line 250) treats both an
absent entry and the empty string (written by the `agent_complete` case)
as "no open message". -/
def openLookup (m : List (String × String)) (k : String) : Option String :=
  match lookupKey m k with
  | some v => if v = "" then none else some v
  | none => none

/-- The store fields read or written by `handleEvent`, together with the
module-level `currentMessageIds` map and the index of the next
environment draw. -/
structure AggState where
  chatHistory : List Message
  agentStates : List (String × AgentState)
  currentMessageIds : List (String × String)
  currentIteration : Nat
  currentStep : Nat
  isProcessing : Bool
  finalOutput : Option String
  idx : Nat
deriving DecidableEq, Repr

/-- Fresh per-agent state (`createInitialAgentState`, store.ts lines 12-16). -/
def createInitialAgentState : AgentState :=
  { isActive := false, isThinking := false, tokenCount := some 0 }

/-- Lowercasing of `agent.toLowerCase()`, written as a per-character map
over the string's character list (the same function as `String.toLower`,
stated in a kernel-evaluable form). -/
def jsToLower (s : String) : String := String.mk (s.data.map Char.toLower)

/-- Effective agent id: `agentId || agent.toLowerCase()` (store.ts
line 195).  An absent or empty `agentId` falls back to the lowercased
`agent` label. -/
def effectiveAgentId (e : Event) : String :=
  match e.agentId with
  | some a => if a = "" then jsToLower e.agent else a
  | none => jsToLower e.agent

/-- Spread update of the `agent_complete` case (store.ts lines 234-238):
`{...state.agentStates[id], isActive: false, isThinking: false}`.
Spreading a missing entry yields an object with no `tokenCount`. -/
def completeAgent : Option AgentState → AgentState
  | some a => { a with isActive := false, isThinking := false }
  | none => { isActive := false, isThinking := false, tokenCount := none }

/-- Combination of `messages.findIndex(m => m.id === mid)` and the
content-extending update at the found index (store.ts lines 262-268):
extend the content of the first message carrying the given id, and leave
the list unchanged when no message carries it. -/
def appendToFirst : List Message → String → String → List Message
  | [], _, _ => []
  | m :: rest, mid, c =>
      if m.id = mid then { m with content := m.content ++ c } :: rest
      else m :: appendToFirst rest mid c

/-- Content of the closing system message of the `done` case:
`content || (satisfied ? 'Pipeline complete' : 'Complete')`
(store.ts line 301); a falsy `content` (absent or empty) selects the
fallback, and `satisfied` is truthy exactly when it is `some true`. -/
def doneContent (e : Event) : String :=
  let fallback := if e.satisfied = some true then "Pipeline complete" else "Complete"
  match e.content with
  | some c => if c = "" then fallback else c
  | none => fallback

/-- Content of the `error` case's system message, from the template
literal `` `Error: ${content}` `` (store.ts line 315); an absent field
renders as the string "undefined". -/
def errorContent (e : Event) : String :=
  "Error: " ++ (match e.content with | some c => c | none => "undefined")

/-- Deactivation sweep of the `done` case (store.ts lines 289-292):
every entry of the agent-state map is marked inactive and not thinking. -/
def deactivateAll (sts : List (String × AgentState)) : List (String × AgentState) :=
  sts.map (fun kv => (kv.1, { kv.2 with isActive := false, isThinking := false }))

/-- Final-output value of the `done` case: `payload || null`
(store.ts line 296); a falsy payload (absent or empty) stores `null`. -/
def donePayload (e : Event) : Option String :=
  match e.payload with
  | some p => if p = "" then none else some p
  | none => none

/-- Shared body of the `token`, `critique` and `refinement` arms of
`handleEvent` (store.ts lines 243-284): look the composite key up in
`currentMessageIds`; if no message is open for it, push a fresh streaming
message and record its id, otherwise extend the content of the message
carrying the recorded id; in both cases mark the agent active with an
incremented token count. -/
def streamStep (o : Oracle) (s : AggState) (e : Event) : AggState :=
  let effId := effectiveAgentId e
  let key := effId ++ "_" ++ typeName e.type
  let newAgentState : AgentState :=
    { isActive := true, isThinking := false,
      tokenCount :=
        some (((lookupKey s.agentStates effId).bind AgentState.tokenCount).getD 0 + 1) }
  match openLookup s.currentMessageIds key with
  | none =>
      { s with
        chatHistory := s.chatHistory ++
          [{ id := o.genId s.idx, agent := e.agent, agentId := some effId,
             content := e.content.getD "", timestamp := o.now s.idx,
             isStreaming := some true, type := e.type }],
        currentMessageIds := setKey s.currentMessageIds key (o.genId s.idx),
        agentStates := setKey s.agentStates effId newAgentState,
        idx := s.idx + 1 }
  | some mid =>
      { s with
        chatHistory := appendToFirst s.chatHistory mid (e.content.getD ""),
        agentStates := setKey s.agentStates effId newAgentState }

/-- The Aggregator's reducer, translated case for case from `handleEvent`
(store.ts lines 193-322).  The `Oracle` supplies the values of the
`generateId()` and `new Date()` calls; each created message consumes one
oracle index. -/
def handleEvent (o : Oracle) (s : AggState) (e : Event) : AggState :=
  let effId := effectiveAgentId e
  match e.type with
  | .status | .iteration | .pipeline_step =>
      { s with
        chatHistory := s.chatHistory ++
          [{ id := o.genId s.idx, agent := e.agent, agentId := some effId,
             content := e.content.getD "", timestamp := o.now s.idx,
             isStreaming := none, type := e.type }],
        currentIteration := e.iteration.getD s.currentIteration,
        currentStep := e.step.getD s.currentStep,
        idx := s.idx + 1 }
  | .agent_start =>
      { s with
        agentStates := setKey s.agentStates effId
          { createInitialAgentState with isActive := true, isThinking := true } }
  | .agent_complete =>
      { s with
        currentMessageIds := setKey s.currentMessageIds effId "",
        agentStates := setKey s.agentStates effId
          (completeAgent (lookupKey s.agentStates effId)) }
  | .token | .critique | .refinement => streamStep o s e
  | .done =>
      { s with
        currentMessageIds := [],
        isProcessing := false,
        finalOutput := donePayload e,
        agentStates := deactivateAll s.agentStates,
        chatHistory := s.chatHistory ++
          [{ id := o.genId s.idx, agent := "SYSTEM", agentId := none,
             content := doneContent e, timestamp := o.now s.idx,
             isStreaming := none, type := e.type }],
        idx := s.idx + 1 }
  | .error =>
      { s with
        isProcessing := false,
        chatHistory := s.chatHistory ++
          [{ id := o.genId s.idx, agent := "SYSTEM", agentId := none,
             content := errorContent e, timestamp := o.now s.idx,
             isStreaming := none, type := e.type }],
        idx := s.idx + 1 }

/-- Fold of the reducer over an event sequence (the replay of a stream). -/
def foldEvents (o : Oracle) (es : List Event) (s : AggState) : AggState :=
  es.foldl (handleEvent o) s

/-- State at the start of a run, as set up by `sendQuery`
(store.ts lines 161-169): cleared transcript and final output,
`isProcessing` true, reset counters, and an emptied `currentMessageIds`
map; no oracle draw has happened yet. -/
def initState : AggState :=
  { chatHistory := [], agentStates := [], currentMessageIds := [],
    currentIteration := 0, currentStep := 0, isProcessing := true,
    finalOutput := none, idx := 0 }

/-- Concrete environment used for evaluating the model on examples: call
`k` of `generateId()` returns a string of `k + 1` letters "a", and call
`k` of `new Date()` returns `k`. -/
def seqOracle : Oracle :=
  { genId := fun n => String.mk (List.replicate (n + 1) 'a'), now := fun n => n }

/-! ## Erased transcripts and the index-based abstraction

The message `id` and `timestamp` fields come from `Math.random()` and
`new Date()`.  To settle what is and is not deterministic about the
Aggregator, we erase those two fields and relate `handleEvent` to an
index-based machine `handleEventA` in which the accumulation map stores
transcript positions instead of random ids. -/

/-- Message with the environment-derived fields (random id, wall-clock
timestamp) erased. -/
structure EMessage where
  agent : String
  agentId : Option String
  content : String
  isStreaming : Option Bool
  type : EventType
deriving DecidableEq, Repr

/-- Erasure of a transcript message. -/
def eraseMsg (m : Message) : EMessage :=
  { agent := m.agent, agentId := m.agentId, content := m.content,
    isStreaming := m.isStreaming, type := m.type }

/-- Position of the first message carrying the given id
(`messages.findIndex(m => m.id === mid)`). -/
def idIdx : List Message → String → Option Nat
  | [], _ => none
  | m :: rest, mid => if m.id = mid then some 0 else (idIdx rest mid).map (· + 1)

/-- State of the index-based abstract aggregator. -/
structure AbsState where
  chatHistory : List EMessage
  agentStates : List (String × AgentState)
  openKeys : List (String × Option Nat)
  currentIteration : Nat
  currentStep : Nat
  isProcessing : Bool
  finalOutput : Option String
deriving DecidableEq, Repr

/-- Content extension of an erased message at a given transcript position. -/
def appendAt : List EMessage → Nat → String → List EMessage
  | [], _, _ => []
  | m :: rest, 0, c => { m with content := m.content ++ c } :: rest
  | m :: rest, i + 1, c => m :: appendAt rest i c

/-- Open accumulation position for a key in the abstract machine. -/
def openIdx (l : List (String × Option Nat)) (k : String) : Option Nat :=
  match lookupKey l k with
  | some (some i) => some i
  | _ => none

/-- Abstract counterpart of `streamStep`, with transcript positions in
place of random ids. -/
def streamStepA (s : AbsState) (e : Event) : AbsState :=
  let effId := effectiveAgentId e
  let key := effId ++ "_" ++ typeName e.type
  let newAgentState : AgentState :=
    { isActive := true, isThinking := false,
      tokenCount :=
        some (((lookupKey s.agentStates effId).bind AgentState.tokenCount).getD 0 + 1) }
  match openIdx s.openKeys key with
  | none =>
      { s with
        chatHistory := s.chatHistory ++
          [{ agent := e.agent, agentId := some effId,
             content := e.content.getD "", isStreaming := some true, type := e.type }],
        openKeys := setKey s.openKeys key (some s.chatHistory.length),
        agentStates := setKey s.agentStates effId newAgentState }
  | some i =>
      { s with
        chatHistory := appendAt s.chatHistory i (e.content.getD ""),
        agentStates := setKey s.agentStates effId newAgentState }

/-- Index-based abstract aggregator: the same reduction as `handleEvent`,
with every random message id replaced by the message's transcript
position and all timestamps dropped. -/
def handleEventA (s : AbsState) (e : Event) : AbsState :=
  let effId := effectiveAgentId e
  match e.type with
  | .status | .iteration | .pipeline_step =>
      { s with
        chatHistory := s.chatHistory ++
          [{ agent := e.agent, agentId := some effId,
             content := e.content.getD "", isStreaming := none, type := e.type }],
        currentIteration := e.iteration.getD s.currentIteration,
        currentStep := e.step.getD s.currentStep }
  | .agent_start =>
      { s with
        agentStates := setKey s.agentStates effId
          { createInitialAgentState with isActive := true, isThinking := true } }
  | .agent_complete =>
      { s with
        openKeys := setKey s.openKeys effId none,
        agentStates := setKey s.agentStates effId
          (completeAgent (lookupKey s.agentStates effId)) }
  | .token | .critique | .refinement => streamStepA s e
  | .done =>
      { s with
        openKeys := [],
        isProcessing := false,
        finalOutput := donePayload e,
        agentStates := deactivateAll s.agentStates,
        chatHistory := s.chatHistory ++
          [{ agent := "SYSTEM", agentId := none,
             content := doneContent e, isStreaming := none, type := e.type }] }
  | .error =>
      { s with
        isProcessing := false,
        chatHistory := s.chatHistory ++
          [{ agent := "SYSTEM", agentId := none,
             content := errorContent e, isStreaming := none, type := e.type }] }

/-- Fold of the abstract aggregator. -/
def foldEventsA (es : List Event) (s : AbsState) : AbsState :=
  es.foldl handleEventA s

/-- Abstraction of one accumulation-map entry: a truthy value becomes the
transcript position of the message carrying it, a falsy one becomes
`none`. -/
def openEntry (chat : List Message) (kv : String × String) : String × Option Nat :=
  (kv.1, if kv.2 = "" then none else idIdx chat kv.2)

/-- Abstraction map from concrete to index-based state: erase ids and
timestamps from the transcript, and send each truthy accumulation-map
entry to the transcript position of the message carrying its id. -/
def abst (s : AggState) : AbsState :=
  { chatHistory := s.chatHistory.map eraseMsg,
    agentStates := s.agentStates,
    openKeys := s.currentMessageIds.map (openEntry s.chatHistory),
    currentIteration := s.currentIteration,
    currentStep := s.currentStep,
    isProcessing := s.isProcessing,
    finalOutput := s.finalOutput }

/-- A well-behaved environment: `generateId()` never returns the same
string twice and never returns the empty string. -/
def GoodOracle (o : Oracle) : Prop :=
  (∀ i j, o.genId i = o.genId j → i = j) ∧ ∀ i, o.genId i ≠ ""

/-- Invariant of reachable concrete states under an oracle: every
transcript message id is an oracle draw with index below the next one,
and every truthy accumulation-map value is such a draw that is carried by
some transcript message. -/
structure Inv (o : Oracle) (s : AggState) : Prop where
  chatIds : ∀ m ∈ s.chatHistory, ∃ k, k < s.idx ∧ m.id = o.genId k
  openVals : ∀ kv ∈ s.currentMessageIds, kv.2 ≠ "" →
    (∃ k, k < s.idx ∧ kv.2 = o.genId k) ∧ (idIdx s.chatHistory kv.2).isSome

/-- Second concrete environment, drawing strings of letters "b"; its
draws never coincide with `seqOracle`'s. -/
def oracleB : Oracle :=
  { genId := fun n => String.mk (List.replicate (n + 1) 'b'), now := fun n => n + 100 }

/-- Pipeline step (`PipelineStep` in `types.ts`).  The `settings` object
is an opaque string-keyed record whose values are modelled as strings. -/
structure PipelineStep where
  id : String
  agentId : String
  role : String
  settings : List (String × String)
deriving DecidableEq, Repr

/-- Effect on the array of the removal splice
`pipeline.splice(fromIndex, 1)`: drop the element at the index (no
change when the index is out of range). -/
def removeAt {α : Type} : List α → Nat → List α
  | [], _ => []
  | _ :: rest, 0 => rest
  | x :: rest, n + 1 => x :: removeAt rest n

/-- Effect of the insertion splice `pipeline.splice(toIndex, 0, removed)`:
insert at the index, clamped to the end when the index exceeds the
length. -/
def insertAt {α : Type} : List α → Nat → α → List α
  | l, 0, x => x :: l
  | [], _ + 1, x => [x]
  | y :: rest, n + 1, x => y :: insertAt rest n x

/-- Reorder action (store.ts lines 348-355): splice the step out at
`fromIndex`, then splice it back in at `toIndex`.  For an out-of-range
`fromIndex` the JavaScript code would insert `undefined` into the array;
that case lies outside every claim, and the model leaves the pipeline
unchanged there. -/
def reorderPipeline (l : List PipelineStep) (fromIndex toIndex : Nat) :
    List PipelineStep :=
  match l.get? fromIndex with
  | some x => insertAt (removeAt l fromIndex) toIndex x
  | none => l

/-- Token event for agent label "A" (no explicit agentId, so the key
falls back to "a"). -/
def tokA (c : String) : Event := { agent := "A", type := .token, content := some c }

/-- Completion event for agent label "A". -/
def completeA : Event := { agent := "A", type := .agent_complete }

/-- Iteration boundary event as emitted between refinement passes. -/
def iterB : Event :=
  { agent := "SYSTEM", type := .iteration, content := some "iter",
    iteration := some 2 }

/-- Event with its `agentId` field replaced by the normalized effective
agent id. -/
def overrideAgentId (e : Event) : Event :=
  { e with agentId := some (effectiveAgentId e) }

/-- Concrete three-step pipeline used to evaluate `reorderPipeline`. -/
def stepsExample : List PipelineStep :=
  [{ id := "s1", agentId := "gemini", role := "generator", settings := [] },
   { id := "s2", agentId := "qwen", role := "critic",
     settings := [("temperature", "low")] },
   { id := "s3", agentId := "claude", role := "refiner", settings := [] }]

/-! ## Sanity checks of the embedding on concrete runs -/

example :
    (handleEvent seqOracle initState
      { agent := "GEMINI", type := .token, content := some "hi" }).chatHistory.map
        (fun m => (m.agentId, m.content, m.isStreaming)) =
      [(some "gemini", "hi", some true)] := by decide

example :
    (foldEvents seqOracle
      [{ agent := "GEMINI", type := .token, content := some "Hel" },
       { agent := "GEMINI", type := .token, content := some "lo" }]
      initState).chatHistory.map (fun m => m.content) = ["Hello"] := by decide

/-! ## Association-list lemmas -/

theorem lookupKey_setKey {α : Type} (l : List (String × α)) (k k' : String) (v : α) :
    lookupKey (setKey l k v) k' = if k = k' then some v else lookupKey l k' := by
  induction l with
  | nil => simp [setKey, lookupKey]
  | cons kv rest ih =>
      obtain ⟨k0, v0⟩ := kv
      by_cases h0 : k0 = k
      · subst h0
        by_cases h1 : k0 = k'
        · subst h1; simp [setKey, lookupKey]
        · simp [setKey, lookupKey, h1]
      · by_cases h1 : k0 = k'
        · subst h1
          have : ¬ k = k0 := fun h => h0 h.symm
          simp [setKey, lookupKey, h0, this]
        · simp [setKey, lookupKey, h0, h1, ih]

theorem lookupKey_mem {α : Type} {l : List (String × α)} {k : String} {v : α}
    (h : lookupKey l k = some v) : (k, v) ∈ l := by
  induction l with
  | nil => simp [lookupKey] at h
  | cons kv rest ih =>
      obtain ⟨k0, v0⟩ := kv
      by_cases h0 : k0 = k
      · subst h0
        simp [lookupKey] at h
        simp [h]
      · simp [lookupKey, h0] at h
        exact List.mem_cons_of_mem _ (ih h)

theorem mem_setKey {α : Type} {l : List (String × α)} {k : String} {v : α}
    {kv : String × α} (h : kv ∈ setKey l k v) : kv = (k, v) ∨ kv ∈ l := by
  induction l with
  | nil => simp [setKey] at h; simp [h]
  | cons kv0 rest ih =>
      obtain ⟨k0, v0⟩ := kv0
      by_cases h0 : k0 = k
      · subst h0
        simp [setKey] at h
        rcases h with h | h
        · exact Or.inl h
        · exact Or.inr (List.mem_cons_of_mem _ h)
      · simp [setKey, h0] at h
        rcases h with h | h
        · exact Or.inr (by simp [h])
        · rcases ih h with h' | h'
          · exact Or.inl h'
          · exact Or.inr (List.mem_cons_of_mem _ h')

theorem map_entries_setKey {α β : Type} (f : α → β) (l : List (String × α))
    (k : String) (v : α) :
    (setKey l k v).map (fun kv => (kv.1, f kv.2)) =
      setKey (l.map (fun kv => (kv.1, f kv.2))) k (f v) := by
  induction l with
  | nil => simp [setKey]
  | cons kv0 rest ih =>
      obtain ⟨k0, v0⟩ := kv0
      by_cases h0 : k0 = k
      · subst h0; simp [setKey]
      · simp [setKey, h0, ih]

theorem lookupKey_map_entries {α β : Type} (f : α → β) (l : List (String × α))
    (k : String) :
    lookupKey (l.map (fun kv => (kv.1, f kv.2))) k = (lookupKey l k).map f := by
  induction l with
  | nil => simp [lookupKey]
  | cons kv0 rest ih =>
      obtain ⟨k0, v0⟩ := kv0
      by_cases h0 : k0 = k
      · subst h0; simp [lookupKey]
      · simp [lookupKey, h0, ih]

/-! ## Lemmas on message-id positions and content extension -/

theorem idIdx_eq_none {l : List Message} {mid : String} :
    idIdx l mid = none ↔ ∀ m ∈ l, m.id ≠ mid := by
  induction l with
  | nil => simp [idIdx]
  | cons m rest ih =>
      by_cases h : m.id = mid
      · simp [idIdx, h]
      · simp [idIdx, h, ih]

theorem idIdx_append_of_isSome {l : List Message} {mid : String}
    (h : (idIdx l mid).isSome) (m : Message) :
    idIdx (l ++ [m]) mid = idIdx l mid := by
  induction l with
  | nil => simp [idIdx] at h
  | cons m0 rest ih =>
      by_cases h0 : m0.id = mid
      · simp [idIdx, h0]
      · simp only [List.cons_append, idIdx, h0, if_false, List.append_eq]
        simp only [idIdx, h0, if_false] at h
        cases hr : idIdx rest mid with
        | none => simp [hr] at h
        | some j => rw [ih (by simp [hr]), hr]

theorem idIdx_append_fresh {l : List Message} {m : Message} {mid : String}
    (hm : m.id = mid) (h : ∀ m' ∈ l, m'.id ≠ mid) :
    idIdx (l ++ [m]) mid = some l.length := by
  induction l with
  | nil => simp [idIdx, hm]
  | cons m0 rest ih =>
      have h0 : m0.id ≠ mid := h m0 (by simp)
      simp only [List.cons_append, idIdx, h0, if_false, List.append_eq]
      rw [ih (fun m' hm' => h m' (List.mem_cons_of_mem _ hm'))]
      simp

theorem appendToFirst_of_none {l : List Message} {mid c : String}
    (h : idIdx l mid = none) : appendToFirst l mid c = l := by
  induction l with
  | nil => rfl
  | cons m rest ih =>
      by_cases h0 : m.id = mid
      · simp [idIdx, h0] at h
      · simp only [idIdx, h0, if_false, Option.map_eq_none'] at h
        simp [appendToFirst, h0, ih h]

theorem map_eraseMsg_appendToFirst {l : List Message} {mid : String} {i : Nat}
    (h : idIdx l mid = some i) (c : String) :
    (appendToFirst l mid c).map eraseMsg = appendAt (l.map eraseMsg) i c := by
  induction l generalizing i with
  | nil => simp [idIdx] at h
  | cons m rest ih =>
      by_cases h0 : m.id = mid
      · simp only [idIdx, h0, if_true] at h
        obtain rfl : (0 : Nat) = i := Option.some.inj h
        simp [appendToFirst, h0, appendAt, eraseMsg]
      · simp only [idIdx, h0, if_false, Option.map_eq_some'] at h
        obtain ⟨j, hj, rfl⟩ := h
        simp [appendToFirst, h0, appendAt, ih hj]

theorem idIdx_appendToFirst (l : List Message) (mid c x : String) :
    idIdx (appendToFirst l mid c) x = idIdx l x := by
  induction l with
  | nil => rfl
  | cons m rest ih =>
      by_cases h0 : m.id = mid
      · simp [appendToFirst, h0, idIdx]
      · simp [appendToFirst, h0, idIdx, ih]

theorem mem_appendToFirst {l : List Message} {mid c : String} {m' : Message}
    (h : m' ∈ appendToFirst l mid c) : ∃ m ∈ l, m'.id = m.id := by
  induction l with
  | nil => simp [appendToFirst] at h
  | cons m rest ih =>
      by_cases h0 : m.id = mid
      · simp only [appendToFirst, h0, if_true, List.mem_cons] at h
        rcases h with h | h
        · exact ⟨m, by simp, by simp [h, h0]⟩
        · exact ⟨m', List.mem_cons_of_mem _ h, rfl⟩
      · simp only [appendToFirst, h0, if_false, List.mem_cons] at h
        rcases h with h | h
        · exact ⟨m, by simp, by simp [h]⟩
        · obtain ⟨m0, hm0, hid⟩ := ih h
          exact ⟨m0, List.mem_cons_of_mem _ hm0, hid⟩

/-! ## Correspondence between the concrete and the index-based aggregator -/

theorem openLookup_eq_some {m : List (String × String)} {k v : String} :
    openLookup m k = some v ↔ lookupKey m k = some v ∧ v ≠ "" := by
  cases h : lookupKey m k with
  | none => simp [openLookup, h]
  | some w =>
      by_cases hw : w = ""
      · subst hw
        simp [openLookup, h]
        intro hv
        exact hv.symm
      · simp [openLookup, h, hw]
        rintro rfl
        exact hw

theorem mapCongrMem {α β : Type} {l : List α} {f g : α → β}
    (h : ∀ a ∈ l, f a = g a) : l.map f = l.map g := by
  induction l with
  | nil => rfl
  | cons a rest ih =>
      simp only [List.map_cons, h a (by simp)]
      rw [ih (fun a' ha' => h a' (List.mem_cons_of_mem _ ha'))]

theorem lookupKey_map_openEntry (chat : List Message)
    (l : List (String × String)) (k : String) :
    lookupKey (l.map (openEntry chat)) k =
      (lookupKey l k).map (fun v => if v = "" then none else idIdx chat v) := by
  induction l with
  | nil => rfl
  | cons kv rest ih =>
      obtain ⟨k0, v0⟩ := kv
      by_cases h0 : k0 = k
      · subst h0
        simp [lookupKey, openEntry]
      · simp [lookupKey, openEntry, h0, ih]

theorem map_openEntry_setKey (chat : List Message)
    (l : List (String × String)) (k v : String) :
    (setKey l k v).map (openEntry chat) =
      setKey (l.map (openEntry chat)) k (if v = "" then none else idIdx chat v) := by
  induction l with
  | nil => simp [setKey, openEntry]
  | cons kv rest ih =>
      obtain ⟨k0, v0⟩ := kv
      by_cases h0 : k0 = k
      · subst h0
        simp [setKey, openEntry]
      · simp [setKey, openEntry, h0, ih]

theorem map_openEntry_append {o : Oracle} {s : AggState} (hs : Inv o s)
    (m : Message) :
    s.currentMessageIds.map (openEntry (s.chatHistory ++ [m])) =
      s.currentMessageIds.map (openEntry s.chatHistory) := by
  apply mapCongrMem
  intro kv hkv
  by_cases h : kv.2 = ""
  · simp [openEntry, h]
  · simp [openEntry, h, idIdx_append_of_isSome ((hs.openVals kv hkv h).2) m]

theorem openEntry_appendToFirst (l : List Message) (mid c : String) :
    openEntry (appendToFirst l mid c) = openEntry l := by
  funext kv
  simp [openEntry, idIdx_appendToFirst]

theorem absStateExt {a b : AbsState}
    (h1 : a.chatHistory = b.chatHistory) (h2 : a.agentStates = b.agentStates)
    (h3 : a.openKeys = b.openKeys) (h4 : a.currentIteration = b.currentIteration)
    (h5 : a.currentStep = b.currentStep) (h6 : a.isProcessing = b.isProcessing)
    (h7 : a.finalOutput = b.finalOutput) : a = b := by
  cases a
  cases b
  simp_all

theorem abst_openIdx (s : AggState) (key : String) :
    openIdx (abst s).openKeys key =
      match openLookup s.currentMessageIds key with
      | some mid => idIdx s.chatHistory mid
      | none => none := by
  simp only [abst, openIdx, openLookup, lookupKey_map_openEntry]
  cases h : lookupKey s.currentMessageIds key with
  | none => simp
  | some v =>
      by_cases hv : v = ""
      · simp [hv]
      · simp only [Option.map_some', hv, if_false]
        cases hi : idIdx s.chatHistory v <;> simp

theorem fresh_id_not_mem {o : Oracle} {s : AggState} (ho : GoodOracle o)
    (hs : Inv o s) : ∀ m' ∈ s.chatHistory, m'.id ≠ o.genId s.idx := by
  intro m' hm' hid
  obtain ⟨k, hk, hkid⟩ := hs.chatIds m' hm'
  have : k = s.idx := ho.1 k s.idx (hkid ▸ hid)
  omega

/-- Commutation of the abstraction on the shared streaming arm: on states
satisfying the invariant, `streamStep` is simulated exactly by
`streamStepA`. -/
theorem abst_streamStep (o : Oracle) (ho : GoodOracle o) (s : AggState)
    (hs : Inv o s) (e : Event) :
    abst (streamStep o s e) = streamStepA (abst s) e := by
  have hopen := abst_openIdx s (effectiveAgentId e ++ "_" ++ typeName e.type)
  cases hv : openLookup s.currentMessageIds
      (effectiveAgentId e ++ "_" ++ typeName e.type) with
  | none =>
      simp only [hv] at hopen
      simp only [streamStep, streamStepA, hv, hopen]
      refine absStateExt ?_ rfl ?_ rfl rfl rfl rfl
      · simp [abst, eraseMsg]
      · simp only [abst]
        rw [map_openEntry_setKey, map_openEntry_append hs]
        have hne : o.genId s.idx ≠ "" := ho.2 s.idx
        have hfresh : idIdx (s.chatHistory ++
            [{ id := o.genId s.idx, agent := e.agent,
               agentId := some (effectiveAgentId e),
               content := e.content.getD "", timestamp := o.now s.idx,
               isStreaming := some true, type := e.type }]) (o.genId s.idx) =
            some s.chatHistory.length :=
          idIdx_append_fresh rfl (fresh_id_not_mem ho hs)
        simp [hne, hfresh]
  | some mid =>
      have hm := openLookup_eq_some.mp hv
      have hmem := lookupKey_mem hm.1
      have hsome := (hs.openVals _ hmem hm.2).2
      obtain ⟨i, hi⟩ := Option.isSome_iff_exists.mp hsome
      simp only [hv] at hopen
      rw [hi] at hopen
      simp only [streamStep, streamStepA, hv, hopen]
      refine absStateExt ?_ rfl ?_ rfl rfl rfl rfl
      · simp only [abst]
        exact map_eraseMsg_appendToFirst hi _
      · simp only [abst, openEntry_appendToFirst]

/-- Commutation of the abstraction: on states satisfying the invariant,
one step of the concrete reducer is simulated exactly by one step of the
index-based reducer. -/
theorem abst_handleEvent (o : Oracle) (ho : GoodOracle o) (s : AggState)
    (hs : Inv o s) (e : Event) :
    abst (handleEvent o s e) = handleEventA (abst s) e := by
  cases hty : e.type
  case status =>
    simp only [handleEvent, handleEventA, hty]
    refine absStateExt ?_ rfl ?_ rfl rfl rfl rfl
    · simp [abst, eraseMsg]
    · simp only [abst]
      exact map_openEntry_append hs _
  case iteration =>
    simp only [handleEvent, handleEventA, hty]
    refine absStateExt ?_ rfl ?_ rfl rfl rfl rfl
    · simp [abst, eraseMsg]
    · simp only [abst]
      exact map_openEntry_append hs _
  case pipeline_step =>
    simp only [handleEvent, handleEventA, hty]
    refine absStateExt ?_ rfl ?_ rfl rfl rfl rfl
    · simp [abst, eraseMsg]
    · simp only [abst]
      exact map_openEntry_append hs _
  case agent_start =>
    simp only [handleEvent, handleEventA, hty]
    exact absStateExt rfl rfl rfl rfl rfl rfl rfl
  case agent_complete =>
    simp only [handleEvent, handleEventA, hty]
    refine absStateExt rfl rfl ?_ rfl rfl rfl rfl
    simp only [abst]
    rw [map_openEntry_setKey]
    simp
  case done =>
    simp only [handleEvent, handleEventA, hty]
    refine absStateExt ?_ rfl ?_ rfl rfl rfl rfl
    · simp [abst, eraseMsg]
    · simp [abst]
  case error =>
    simp only [handleEvent, handleEventA, hty]
    refine absStateExt ?_ rfl ?_ rfl rfl rfl rfl
    · simp [abst, eraseMsg]
    · simp only [abst]
      exact map_openEntry_append hs _
  case token =>
    simp only [handleEvent, handleEventA, hty]
    exact abst_streamStep o ho s hs e
  case critique =>
    simp only [handleEvent, handleEventA, hty]
    exact abst_streamStep o ho s hs e
  case refinement =>
    simp only [handleEvent, handleEventA, hty]
    exact abst_streamStep o ho s hs e

/-! ## Invariant preservation and fold commutation -/

theorem chatIds_append {o : Oracle} {s : AggState} (hs : Inv o s)
    {m : Message} (hm : m.id = o.genId s.idx) :
    ∀ m' ∈ s.chatHistory ++ [m], ∃ k, k < s.idx + 1 ∧ m'.id = o.genId k := by
  intro m' hm'
  rcases List.mem_append.mp hm' with h | h
  · obtain ⟨k, hk, hkid⟩ := hs.chatIds m' h
    exact ⟨k, by omega, hkid⟩
  · have he : m' = m := List.mem_singleton.mp h
    exact ⟨s.idx, by omega, by rw [he, hm]⟩

theorem openVals_append {o : Oracle} {s : AggState} (hs : Inv o s) (m : Message) :
    ∀ kv ∈ s.currentMessageIds, kv.2 ≠ "" →
      (∃ k, k < s.idx + 1 ∧ kv.2 = o.genId k) ∧
        (idIdx (s.chatHistory ++ [m]) kv.2).isSome := by
  intro kv hkv hne
  obtain ⟨⟨k, hk, hkv2⟩, hsome⟩ := hs.openVals kv hkv hne
  refine ⟨⟨k, by omega, hkv2⟩, ?_⟩
  rw [idIdx_append_of_isSome hsome]
  exact hsome

theorem Inv_streamStep (o : Oracle) (ho : GoodOracle o) {s : AggState}
    (hs : Inv o s) (e : Event) : Inv o (streamStep o s e) := by
  cases hv : openLookup s.currentMessageIds
      (effectiveAgentId e ++ "_" ++ typeName e.type) with
  | none =>
      simp only [streamStep, hv]
      constructor
      · exact chatIds_append hs rfl
      · intro kv hkv hne
        rcases mem_setKey hkv with h | h
        · subst h
          refine ⟨⟨s.idx, Nat.lt_succ_self s.idx, rfl⟩, ?_⟩
          rw [idIdx_append_fresh rfl (fresh_id_not_mem ho hs)]
          simp
        · exact openVals_append hs _ kv h hne
  | some mid =>
      simp only [streamStep, hv]
      constructor
      · intro m hm
        obtain ⟨m0, hm0, hid⟩ := mem_appendToFirst hm
        obtain ⟨k, hk, hkid⟩ := hs.chatIds m0 hm0
        exact ⟨k, hk, by rw [hid, hkid]⟩
      · intro kv hkv hne
        obtain ⟨hdraw, hsome⟩ := hs.openVals kv hkv hne
        refine ⟨hdraw, ?_⟩
        rw [idIdx_appendToFirst]
        exact hsome

theorem Inv_handleEvent (o : Oracle) (ho : GoodOracle o) {s : AggState}
    (hs : Inv o s) (e : Event) : Inv o (handleEvent o s e) := by
  cases hty : e.type
  case status =>
    simp only [handleEvent, hty]
    exact ⟨chatIds_append hs rfl, openVals_append hs _⟩
  case iteration =>
    simp only [handleEvent, hty]
    exact ⟨chatIds_append hs rfl, openVals_append hs _⟩
  case pipeline_step =>
    simp only [handleEvent, hty]
    exact ⟨chatIds_append hs rfl, openVals_append hs _⟩
  case agent_start =>
    simp only [handleEvent, hty]
    exact ⟨hs.chatIds, hs.openVals⟩
  case agent_complete =>
    simp only [handleEvent, hty]
    refine ⟨hs.chatIds, ?_⟩
    intro kv hkv hne
    rcases mem_setKey hkv with h | h
    · rw [h] at hne
      simp at hne
    · exact hs.openVals kv h hne
  case done =>
    simp only [handleEvent, hty]
    refine ⟨chatIds_append hs rfl, ?_⟩
    intro kv hkv hne
    simp at hkv
  case error =>
    simp only [handleEvent, hty]
    exact ⟨chatIds_append hs rfl, openVals_append hs _⟩
  case token =>
    simp only [handleEvent, hty]
    exact Inv_streamStep o ho hs e
  case critique =>
    simp only [handleEvent, hty]
    exact Inv_streamStep o ho hs e
  case refinement =>
    simp only [handleEvent, hty]
    exact Inv_streamStep o ho hs e

theorem Inv_initState (o : Oracle) : Inv o initState := by
  constructor
  · intro m hm
    simp [initState] at hm
  · intro kv hkv hne
    simp [initState] at hkv

theorem abst_foldEvents (o : Oracle) (ho : GoodOracle o) (es : List Event)
    {s : AggState} (hs : Inv o s) :
    abst (foldEvents o es s) = foldEventsA es (abst s) := by
  induction es generalizing s with
  | nil => rfl
  | cons e rest ih =>
      show abst (foldEvents o rest (handleEvent o s e)) =
        foldEventsA rest (handleEventA (abst s) e)
      rw [← abst_handleEvent o ho s hs e]
      exact ih (Inv_handleEvent o ho hs e)

theorem seqOracle_good : GoodOracle seqOracle := by
  constructor
  · intro i j h
    have h2 : i + 1 = j + 1 := by
      have h3 := congrArg (fun t => t.data.length) h
      simpa [seqOracle] using h3
    omega
  · intro i h
    have h3 := congrArg (fun t => t.data.length) h
    simp [seqOracle] at h3

theorem oracleB_good : GoodOracle oracleB := by
  constructor
  · intro i j h
    have h2 : i + 1 = j + 1 := by
      have h3 := congrArg (fun t => t.data.length) h
      simpa [oracleB] using h3
    omega
  · intro i h
    have h3 := congrArg (fun t => t.data.length) h
    simp [oracleB] at h3

/-! ## C1: replay determinism -/

/-- C1, counterexample.  The claim asserts that two runs of the fold over
the same Event sequence from the same initial empty state yield identical
final Messages with no hidden side information.  It is false as stated:
the Message `id` (from `Math.random()`) and `timestamp` (from
`new Date()`) are drawn from the environment, so two deliveries whose
draws differ produce different chatHistories, already after one `status`
event. -/
theorem c1_counterexample :
    (foldEvents seqOracle
        [{ agent := "SYSTEM", type := .status, content := some "s" }]
        initState).chatHistory ≠
      (foldEvents oracleB
        [{ agent := "SYSTEM", type := .status, content := some "s" }]
        initState).chatHistory := by
  decide

/-- C1, amended: replay determinism up to the environment-drawn fields.
For any two runs of the fold over the same Event sequence from the same
initial empty state, under any two id sources that are injective and
never return the empty string and any two clocks, the final Messages
agree after erasing the random `id` and the wall-clock `timestamp`, and
the final AgentState map and finalOutput are identical.  Apart from those
two drawn fields, the derived state is a deterministic pure function of
the event sequence. -/
theorem c1_replay_determinism_up_to_ids (o1 o2 : Oracle)
    (h1 : GoodOracle o1) (h2 : GoodOracle o2) (es : List Event) :
    (foldEvents o1 es initState).chatHistory.map eraseMsg =
        (foldEvents o2 es initState).chatHistory.map eraseMsg ∧
      (foldEvents o1 es initState).agentStates =
        (foldEvents o2 es initState).agentStates ∧
      (foldEvents o1 es initState).finalOutput =
        (foldEvents o2 es initState).finalOutput := by
  have e1 := abst_foldEvents o1 h1 es (Inv_initState o1)
  have e2 := abst_foldEvents o2 h2 es (Inv_initState o2)
  have h : abst (foldEvents o1 es initState) = abst (foldEvents o2 es initState) := by
    rw [e1, e2]
  exact ⟨congrArg AbsState.chatHistory h, congrArg AbsState.agentStates h,
    congrArg AbsState.finalOutput h⟩

/-- Witness for the amended C1 theorem: both concrete environments are
well behaved, and a concrete two-event run yields the same erased
transcript under either of them. -/
theorem c1_witness :
    GoodOracle seqOracle ∧ GoodOracle oracleB ∧
      (foldEvents seqOracle
          [{ agent := "GEMINI", type := .token, content := some "hi" },
           { agent := "GEMINI", type := .agent_complete }]
          initState).chatHistory.map eraseMsg =
        (foldEvents oracleB
          [{ agent := "GEMINI", type := .token, content := some "hi" },
           { agent := "GEMINI", type := .agent_complete }]
          initState).chatHistory.map eraseMsg :=
  ⟨seqOracle_good, oracleB_good,
    (c1_replay_determinism_up_to_ids seqOracle oracleB seqOracle_good
      oracleB_good _).1⟩

/-! ## C2: accumulation correctness -/

/-- C2, counterexample.  After token("A","Hello"), token("A"," world"),
agent_complete("A") from the initial state, the transcript holds exactly
one Message whose content is "Hello world" — but its `isStreaming` flag
is still `true`: no case of `handleEvent` (in particular not
`agent_complete`, which only touches `agentStates` and the bare-key
accumulation entry) ever writes `isStreaming: false`.  This refutes the
claim that the flag "ends false, set false at agent_complete". -/
theorem c2_counterexample :
    (foldEvents seqOracle [tokA "Hello", tokA " world", completeA]
        initState).chatHistory.map (fun m => (m.content, m.isStreaming)) =
      [("Hello world", some true)] := by
  decide

/-- C2, amended.  Processing token("A","Hello"), token("A"," world"),
agent_complete("A") from the initial state yields exactly one Message for
the key ("a", token); its content is exactly "Hello world" (the second
token event extends the first Message by string concatenation rather than
opening a new one); its `isStreaming` flag remains `true`, because the
store never clears that flag — `agent_complete` only deactivates the
agent's state. -/
theorem c2_accumulation :
    ((foldEvents seqOracle [tokA "Hello", tokA " world", completeA]
          initState).chatHistory.filter
        (fun m => decide (m.agentId = some "a" ∧ m.type = EventType.token))).map
        (fun m => (m.content, m.isStreaming, m.agent)) =
      [("Hello world", some true, "A")] := by
  decide

/-! ## C3: iteration boundary -/

/-- C3, counterexample.  With an `iteration` event between two `token`
events for agent "A" (and no other boundary event), the fold produces a
single token Message for "A" with concatenated content "xy" — not the two
distinct Messages the claim asserts: the `iteration` case of the reducer
appends a system Message and updates counters but never touches the
accumulation map. -/
theorem c3_counterexample :
    ((foldEvents seqOracle [tokA "x", iterB, tokA "y"]
          initState).chatHistory.filter
        (fun m => decide (m.type = EventType.token))).map (fun m => m.content) =
      ["xy"] := by
  decide

/-- C3, amended.  An `iteration` event does not reset the open per-agent
accumulation keys: it leaves `currentMessageIds` and `agentStates`
untouched and only appends one standalone Message (and updates the
iteration/step counters).  Consequently token events for "A" before and
after an iteration event accumulate into one concatenated Message, as the
concrete run token("A","x"), iteration, token("A","y") shows. -/
theorem c3_iteration_no_boundary :
    (∀ (o : Oracle) (s : AggState) (e : Event), e.type = EventType.iteration →
        (handleEvent o s e).currentMessageIds = s.currentMessageIds ∧
          (handleEvent o s e).agentStates = s.agentStates ∧
          ∃ m, (handleEvent o s e).chatHistory = s.chatHistory ++ [m]) ∧
      ((foldEvents seqOracle [tokA "x", iterB, tokA "y"]
            initState).chatHistory.filter
          (fun m => decide (m.type = EventType.token))).map (fun m => m.content) =
        ["xy"] := by
  constructor
  · intro o s e h
    simp only [handleEvent, h]
    exact ⟨trivial, trivial, _, rfl⟩
  · decide

/-- Witness for the amended C3 theorem at a concrete iteration event. -/
theorem c3_witness :
    (handleEvent seqOracle initState iterB).currentMessageIds =
      initState.currentMessageIds :=
  (c3_iteration_no_boundary.1 seqOracle initState iterB rfl).1

/-! ## C4: agent_complete postcondition -/

/-- C4, evaluation at the failing input.  The claim (with the spec) says
`agent_complete` clears the open accumulation key so that a later token
for the same (agentId, type) pair starts a new Message.  The code instead
executes `currentMessageIds[effectiveAgentId] = ''` — it writes the BARE
agent id key "a", while the streaming lookup reads the suffixed key
"a_token"; a key of that bare shape is never read by the lookup, so the
write is dead and the open key survives.  Hence after token("A","x"),
agent_complete("A"), token("A","y") there is ONE Message "xy", the open
key "a_token" is still truthy, while the AgentState part of the claim
does hold (inactive, not thinking, tokenCount preserved then incremented). -/
theorem c4_agent_complete_bug :
    ((foldEvents seqOracle [tokA "x", completeA, tokA "y"]
          initState).chatHistory.map (fun m => m.content) = ["xy"]) ∧
      openLookup (foldEvents seqOracle [tokA "x", completeA]
          initState).currentMessageIds "a_token" ≠ none ∧
      lookupKey (foldEvents seqOracle [tokA "x", completeA]
          initState).agentStates "a" =
        some { isActive := false, isThinking := false, tokenCount := some 1 } := by
  decide

/-! ## C5: done postcondition -/

/-- C5, counterexample.  The claim says the `done` event sets finalOutput
to the event's payload.  The code computes `payload || null`, so a
present-but-empty payload is coerced to null: with `payload = some ""`
the resulting finalOutput is `none`, not the payload. -/
theorem c5_counterexample :
    (handleEvent seqOracle initState
        { agent := "SYSTEM", type := .done, payload := some "" }).finalOutput ≠
      ({ agent := "SYSTEM", type := .done, payload := some "" } : Event).payload := by
  decide

/-- C5, amended.  For every state and done event: all accumulation keys
are closed (the map is emptied), every AgentState entry is marked
inactive and not thinking with its key and tokenCount preserved, exactly
one closing system Message is appended (no existing Message is removed or
altered), and finalOutput is set to the event's payload unless the
payload is absent or empty, in which case it is null (`payload || null`). -/
theorem c5_done_postcondition (o : Oracle) (s : AggState) (e : Event)
    (h : e.type = EventType.done) :
    (handleEvent o s e).currentMessageIds = [] ∧
      (∀ kv ∈ (handleEvent o s e).agentStates,
        kv.2.isActive = false ∧ kv.2.isThinking = false) ∧
      ((handleEvent o s e).agentStates.map (fun kv => (kv.1, kv.2.tokenCount)) =
        s.agentStates.map (fun kv => (kv.1, kv.2.tokenCount))) ∧
      (∀ p, e.payload = some p → p ≠ "" →
        (handleEvent o s e).finalOutput = some p) ∧
      (e.payload = none → (handleEvent o s e).finalOutput = none) ∧
      (e.payload = some "" → (handleEvent o s e).finalOutput = none) ∧
      ∃ m, (handleEvent o s e).chatHistory = s.chatHistory ++ [m] ∧
        m.agent = "SYSTEM" ∧ m.type = EventType.done := by
  refine ⟨?_, ?_, ?_, ?_, ?_, ?_, ?_⟩
  · simp only [handleEvent, h]
  · intro kv hkv
    simp only [handleEvent, h, deactivateAll, List.mem_map] at hkv
    obtain ⟨kv0, hkv0, rfl⟩ := hkv
    exact ⟨rfl, rfl⟩
  · simp only [handleEvent, h]
    simp [deactivateAll, List.map_map]
  · intro p hp hne
    simp only [handleEvent, h]
    simp [donePayload, hp, hne]
  · intro hp
    simp only [handleEvent, h]
    simp [donePayload, hp]
  · intro hp
    simp only [handleEvent, h]
    simp [donePayload, hp]
  · simp only [handleEvent, h]
    exact ⟨_, rfl, rfl, rfl⟩

/-- Witness for the amended C5 theorem at a concrete done event applied
to a state holding one active agent and one open key. -/
theorem c5_witness :
    (handleEvent seqOracle
        (foldEvents seqOracle [tokA "x"] initState)
        { agent := "SYSTEM", type := .done, payload := some "answer",
          satisfied := some true }).currentMessageIds = [] ∧
      (handleEvent seqOracle
        (foldEvents seqOracle [tokA "x"] initState)
        { agent := "SYSTEM", type := .done, payload := some "answer",
          satisfied := some true }).finalOutput = some "answer" := by
  have h := c5_done_postcondition seqOracle
    (foldEvents seqOracle [tokA "x"] initState)
    { agent := "SYSTEM", type := .done, payload := some "answer",
      satisfied := some true } rfl
  exact ⟨h.1, h.2.2.2.1 "answer" rfl (by decide)⟩

/-! ## C6: error postcondition -/

/-- C6: for every state and every error event carrying content, the run
is marked inactive (isProcessing false) and exactly one system Message is
appended, whose content is "Error: " followed by the event content; the
transcript is extended on the right, so every previously delivered
Message is still present and unchanged. -/
theorem c6_error_postcondition (o : Oracle) (s : AggState) (e : Event)
    (h : e.type = EventType.error) (c : String) (hc : e.content = some c) :
    (handleEvent o s e).isProcessing = false ∧
      ∃ m, (handleEvent o s e).chatHistory = s.chatHistory ++ [m] ∧
        m.agent = "SYSTEM" ∧ m.type = EventType.error ∧
        m.content = "Error: " ++ c := by
  refine ⟨?_, ?_⟩
  · simp only [handleEvent, h]
  · simp only [handleEvent, h]
    refine ⟨_, rfl, rfl, rfl, ?_⟩
    simp [errorContent, hc]

/-- Witness for the C6 theorem at a concrete error event applied to a
state already holding a partial transcript. -/
theorem c6_witness :
    (handleEvent seqOracle (foldEvents seqOracle [tokA "x"] initState)
        { agent := "SYSTEM", type := .error,
          content := some "boom" }).isProcessing = false ∧
      ∃ m, (handleEvent seqOracle (foldEvents seqOracle [tokA "x"] initState)
          { agent := "SYSTEM", type := .error,
            content := some "boom" }).chatHistory =
        (foldEvents seqOracle [tokA "x"] initState).chatHistory ++ [m] ∧
        m.agent = "SYSTEM" ∧ m.type = EventType.error ∧
        m.content = "Error: " ++ "boom" :=
  c6_error_postcondition seqOracle (foldEvents seqOracle [tokA "x"] initState)
    { agent := "SYSTEM", type := .error, content := some "boom" } rfl "boom" rfl

/-! ## C7: agentId fallback -/

theorem jsToLower_of_effId_empty {e : Event} (h : effectiveAgentId e = "") :
    jsToLower e.agent = "" := by
  unfold effectiveAgentId at h
  cases ha : e.agentId with
  | none =>
      rw [ha] at h
      exact h
  | some a =>
      rw [ha] at h
      have h' : (if a = "" then jsToLower e.agent else a) = "" := h
      by_cases h0 : a = ""
      · rw [if_pos h0] at h'
        exact h'
      · rw [if_neg h0] at h'
        exact absurd h' h0

theorem effectiveAgentId_setAgentId (e : Event) (ty : EventType) :
    effectiveAgentId
      { agent := e.agent, type := ty, content := e.content,
        iteration := e.iteration, satisfied := e.satisfied,
        payload := e.payload, step := e.step,
        agentId := some (effectiveAgentId e) } = effectiveAgentId e := by
  show (if effectiveAgentId e = "" then jsToLower e.agent
    else effectiveAgentId e) = effectiveAgentId e
  by_cases h : effectiveAgentId e = ""
  · rw [if_pos h, jsToLower_of_effId_empty h, h]
  · rw [if_neg h]

theorem doneContent_setAgentId (e : Event) (ty : EventType) :
    doneContent
      { agent := e.agent, type := ty, content := e.content,
        iteration := e.iteration, satisfied := e.satisfied,
        payload := e.payload, step := e.step,
        agentId := some (effectiveAgentId e) } = doneContent e := rfl

theorem errorContent_setAgentId (e : Event) (ty : EventType) :
    errorContent
      { agent := e.agent, type := ty, content := e.content,
        iteration := e.iteration, satisfied := e.satisfied,
        payload := e.payload, step := e.step,
        agentId := some (effectiveAgentId e) } = errorContent e := rfl

theorem donePayload_setAgentId (e : Event) (ty : EventType) :
    donePayload
      { agent := e.agent, type := ty, content := e.content,
        iteration := e.iteration, satisfied := e.satisfied,
        payload := e.payload, step := e.step,
        agentId := some (effectiveAgentId e) } = donePayload e := rfl

/-- C7: the effective agent id is the event's agentId when that field is
present and non-empty, and falls back to the lowercased agent label when
the field is absent; and the reducer keys everything by exactly this
normalized id: replacing the agentId field by the normalized id leaves
handleEvent's result unchanged on every state, so all accumulation,
Message attribution and AgentState updates are keyed by it. -/
theorem c7_agent_id_fallback (e : Event) :
    (e.agentId = none → effectiveAgentId e = jsToLower e.agent) ∧
      (∀ a, e.agentId = some a → a ≠ "" → effectiveAgentId e = a) ∧
      ∀ (o : Oracle) (s : AggState),
        handleEvent o s e = handleEvent o s (overrideAgentId e) := by
  refine ⟨?_, ?_, ?_⟩
  · intro h
    simp [effectiveAgentId, h]
  · intro a ha hne
    simp [effectiveAgentId, ha, hne]
  · intro o s
    cases hty : e.type <;>
      simp only [handleEvent, streamStep, overrideAgentId, hty,
        effectiveAgentId_setAgentId, doneContent_setAgentId,
        errorContent_setAgentId, donePayload_setAgentId]

/-- Witness for the C7 theorem: fallback at an event without agentId and
pass-through at an event with a non-empty agentId. -/
theorem c7_witness :
    effectiveAgentId { agent := "GEMINI", type := EventType.token } =
        jsToLower "GEMINI" ∧
      effectiveAgentId
          { agent := "GEMINI", type := EventType.token, agentId := some "g1" } =
        "g1" :=
  ⟨(c7_agent_id_fallback { agent := "GEMINI", type := EventType.token }).1 rfl,
    (c7_agent_id_fallback
      { agent := "GEMINI", type := EventType.token, agentId := some "g1" }).2.1
      "g1" rfl (by decide)⟩

/-! ## C8: reorder integrity -/

theorem perm_removeAt {α : Type} (l : List α) (i : Nat) (x : α)
    (h : l.get? i = some x) : l.Perm (x :: removeAt l i) := by
  induction l generalizing i with
  | nil => simp at h
  | cons y rest ih =>
      cases i with
      | zero =>
          obtain rfl : y = x := by simpa using h
          exact List.Perm.refl _
      | succ n =>
          have h' : rest.get? n = some x := by simpa using h
          have hp := ih n h'
          exact ((hp.cons y).trans (List.Perm.swap x y (removeAt rest n)))

theorem perm_insertAt {α : Type} (l : List α) (i : Nat) (x : α) :
    (insertAt l i x).Perm (x :: l) := by
  induction l generalizing i with
  | nil =>
      cases i with
      | zero => exact List.Perm.refl _
      | succ n => exact List.Perm.refl _
  | cons y rest ih =>
      cases i with
      | zero => exact List.Perm.refl _
      | succ n =>
          show (y :: insertAt rest n x).Perm (x :: y :: rest)
          exact ((ih n).cons y).trans (List.Perm.swap x y rest)

theorem get_insertAt {α : Type} (l : List α) (i : Nat) (x : α)
    (h : i ≤ l.length) : (insertAt l i x).get? i = some x := by
  induction l generalizing i with
  | nil =>
      cases i with
      | zero => rfl
      | succ n => simp at h
  | cons y rest ih =>
      cases i with
      | zero => rfl
      | succ n =>
          have h' : n ≤ rest.length := by simpa using h
          simpa [insertAt] using ih n h'

theorem length_removeAt {α : Type} {l : List α} {i : Nat} (h : i < l.length) :
    (removeAt l i).length = l.length - 1 := by
  induction l generalizing i with
  | nil => simp at h
  | cons y rest ih =>
      cases i with
      | zero => simp [removeAt]
      | succ n =>
          have h' : n < rest.length := by simpa using h
          have := ih h'
          simp only [removeAt, List.length_cons, this]
          omega

/-- C8: reorder integrity.  For every pipeline and in-range pair of
indices, `reorderPipeline` produces a permutation of the original steps
(so every step, with its id, agentId, role and settings, is retained
unchanged), the step that was at `fromIndex` now sits at `toIndex`, and
the length is unchanged. -/
theorem c8_reorder_integrity (l : List PipelineStep) (f t : Nat)
    (hf : f < l.length) (ht : t < l.length) :
    (reorderPipeline l f t).Perm l ∧
      (reorderPipeline l f t).get? t = l.get? f ∧
      (reorderPipeline l f t).length = l.length := by
  have hx : l.get? f = some (l.get ⟨f, hf⟩) := List.get?_eq_get hf
  have hre : reorderPipeline l f t = insertAt (removeAt l f) t (l.get ⟨f, hf⟩) := by
    unfold reorderPipeline
    rw [hx]
  have hperm1 : l.Perm (l.get ⟨f, hf⟩ :: removeAt l f) := perm_removeAt l f _ hx
  have hperm2 : (insertAt (removeAt l f) t (l.get ⟨f, hf⟩)).Perm
      (l.get ⟨f, hf⟩ :: removeAt l f) := perm_insertAt _ t _
  have hperm : (reorderPipeline l f t).Perm l := by
    rw [hre]
    exact hperm2.trans hperm1.symm
  have hlen0 : (removeAt l f).length = l.length - 1 := length_removeAt hf
  have htle : t ≤ (removeAt l f).length := by omega
  refine ⟨hperm, ?_, hperm.length_eq⟩
  rw [hre, hx]
  exact get_insertAt _ t _ htle

/-- Witness for the C8 theorem at the spec's own example: moving the step
at index 2 of a three-step pipeline to index 0. -/
theorem c8_witness :
    (2 < stepsExample.length ∧ 0 < stepsExample.length) ∧
      (reorderPipeline stepsExample 2 0).Perm stepsExample ∧
      (reorderPipeline stepsExample 2 0).get? 0 = stepsExample.get? 2 ∧
      (reorderPipeline stepsExample 2 0).length = stepsExample.length :=
  ⟨⟨by decide, by decide⟩,
    c8_reorder_integrity stepsExample 2 0 (by decide) (by decide)⟩

/-! ## C9: totality on protocol-violating sequences -/

/-- C9: a token/critique/refinement event for an agent with no AgentState
entry (no prior agent_start) is handled without failure: with no open
accumulation for its key, the reducer pushes a new streaming Message
attributed to the effective agent id and derives the agent's state from
the missing entry, treating the absent tokenCount as 0, so the count
becomes 1 with isActive true and isThinking false. -/
theorem c9_totality_without_agent_start (o : Oracle) (s : AggState) (e : Event)
    (hty : e.type = EventType.token ∨ e.type = EventType.critique ∨
      e.type = EventType.refinement)
    (hstate : lookupKey s.agentStates (effectiveAgentId e) = none)
    (hopen : openLookup s.currentMessageIds
      (effectiveAgentId e ++ "_" ++ typeName e.type) = none) :
    (∃ m, (handleEvent o s e).chatHistory = s.chatHistory ++ [m] ∧
        m.agentId = some (effectiveAgentId e) ∧
        m.content = e.content.getD "" ∧
        m.isStreaming = some true ∧ m.type = e.type) ∧
      lookupKey (handleEvent o s e).agentStates (effectiveAgentId e) =
        some { isActive := true, isThinking := false, tokenCount := some 1 } := by
  have hbranch : handleEvent o s e = streamStep o s e := by
    rcases hty with h | h | h <;> simp [handleEvent, h]
  rw [hbranch]
  constructor
  · show ∃ m, (streamStep o s e).chatHistory = s.chatHistory ++ [m] ∧
      m.agentId = some (effectiveAgentId e) ∧ m.content = e.content.getD "" ∧
      m.isStreaming = some true ∧ m.type = e.type
    simp only [streamStep, hopen]
    exact ⟨_, rfl, rfl, rfl, rfl, rfl⟩
  · show lookupKey (streamStep o s e).agentStates (effectiveAgentId e) =
      some { isActive := true, isThinking := false, tokenCount := some 1 }
    simp only [streamStep, hopen, hstate]
    rw [lookupKey_setKey]
    simp

/-- Witness for the C9 theorem: first token for agent "A" from the
initial empty state, where no agent_start was ever delivered. -/
theorem c9_witness :
    ((∃ m, (handleEvent seqOracle initState (tokA "hi")).chatHistory =
        initState.chatHistory ++ [m] ∧
        m.agentId = some (effectiveAgentId (tokA "hi")) ∧
        m.content = (tokA "hi").content.getD "" ∧
        m.isStreaming = some true ∧ m.type = (tokA "hi").type) ∧
      lookupKey (handleEvent seqOracle initState (tokA "hi")).agentStates
          (effectiveAgentId (tokA "hi")) =
        some { isActive := true, isThinking := false, tokenCount := some 1 }) :=
  c9_totality_without_agent_start seqOracle initState (tokA "hi")
    (Or.inl rfl) (by decide) (by decide)

/-! ## C10: append-only transcript -/

theorem appendToFirst_shape (l : List Message) (mid c : String) :
    appendToFirst l mid c = l ∨
      ∃ i m, l.get? i = some m ∧ m.id = mid ∧
        appendToFirst l mid c = l.set i { m with content := m.content ++ c } := by
  induction l with
  | nil => exact Or.inl rfl
  | cons m rest ih =>
      by_cases h0 : m.id = mid
      · right
        exact ⟨0, m, rfl, h0, by simp [appendToFirst, h0]⟩
      · rcases ih with h | ⟨i, m0, hget, hid, heq⟩
        · left
          simp [appendToFirst, h0, h]
        · right
          refine ⟨i + 1, m0, by simpa using hget, hid, ?_⟩
          simp [appendToFirst, h0, heq]

theorem c10_stream_shape (o : Oracle) (s : AggState) (e : Event) :
    (streamStep o s e).chatHistory = s.chatHistory ∨
      (∃ m, (streamStep o s e).chatHistory = s.chatHistory ++ [m]) ∨
      ∃ i m, s.chatHistory.get? i = some m ∧
        (streamStep o s e).chatHistory =
          s.chatHistory.set i
            { m with content := m.content ++ e.content.getD "" } := by
  cases hv : openLookup s.currentMessageIds
      (effectiveAgentId e ++ "_" ++ typeName e.type) with
  | none =>
      right
      left
      simp only [streamStep, hv]
      exact ⟨_, rfl⟩
  | some mid =>
      have hshape := appendToFirst_shape s.chatHistory mid (e.content.getD "")
      rcases hshape with h | ⟨i, m, hget, hid, heq⟩
      · refine Or.inl ?_
        simp only [streamStep, hv]
        exact h
      · refine Or.inr (Or.inr ⟨i, m, hget, ?_⟩)
        simp only [streamStep, hv]
        exact heq

/-- C10: the transcript is append-only.  Every single step of the reducer
leaves chatHistory unchanged, or extends it by exactly one new Message at
the end, or extends exactly one existing Message's content (at one index)
by the event's content; in the last case only the content field changes,
so no Message is ever deleted or reordered and no Message's id, agent,
agentId or type is ever modified. -/
theorem c10_append_only (o : Oracle) (s : AggState) (e : Event) :
    (handleEvent o s e).chatHistory = s.chatHistory ∨
      (∃ m, (handleEvent o s e).chatHistory = s.chatHistory ++ [m]) ∨
      ∃ i m, s.chatHistory.get? i = some m ∧
        (handleEvent o s e).chatHistory =
          s.chatHistory.set i
            { m with content := m.content ++ e.content.getD "" } := by
  cases hty : e.type
  case status =>
    right
    left
    simp only [handleEvent, hty]
    exact ⟨_, rfl⟩
  case iteration =>
    right
    left
    simp only [handleEvent, hty]
    exact ⟨_, rfl⟩
  case pipeline_step =>
    right
    left
    simp only [handleEvent, hty]
    exact ⟨_, rfl⟩
  case agent_start =>
    exact Or.inl (by simp [handleEvent, hty])
  case agent_complete =>
    exact Or.inl (by simp [handleEvent, hty])
  case done =>
    right
    left
    simp only [handleEvent, hty]
    exact ⟨_, rfl⟩
  case error =>
    right
    left
    simp only [handleEvent, hty]
    exact ⟨_, rfl⟩
  case token =>
    have hbranch : handleEvent o s e = streamStep o s e := by
      simp [handleEvent, hty]
    rw [hbranch]
    exact c10_stream_shape o s e
  case critique =>
    have hbranch : handleEvent o s e = streamStep o s e := by
      simp [handleEvent, hty]
    rw [hbranch]
    exact c10_stream_shape o s e
  case refinement =>
    have hbranch : handleEvent o s e = streamStep o s e := by
      simp [handleEvent, hty]
    rw [hbranch]
    exact c10_stream_shape o s e

end Bridge
